import Mathlib

/-!
Verification development for the startwriting-now micro-journaling app.

The definitions below are a shallow embedding of the JavaScript source:

* `src/assets/js/components/storage.js` — `StorageManager`, `EntriesStorage`,
  `StreakStorage`, and the `ActionsManager` save/copy flow;
* `src/assets/js/components/prompts.js` — `PromptsManager`;
* the helper utilities (`countWords`, `getTimeCategory`) and the
  `StreakManager.updateStreak` gate.

Modelling conventions, stated once here and referenced from the doc
comments of the individual definitions:

* `localStorage` is modelled by per-key typed slots: the storage keys of
  `STORAGE_KEYS` are pairwise distinct string constants, so each store owns
  one slot.  A slot value `none` means the key is absent
  (`getItem` returns `null`); `some none` means a string is present but
  `JSON.parse` throws on it; `some (some v)` means the string decodes to `v`.
  The flag `available = false` models a storage engine whose access throws
  (privacy mode, disabled storage); `full = true` models `setItem` throwing
  (quota exceeded).
* Calendar-date strings `"YYYY-MM-DD"` are modelled by the `CalDate`
  structure.  For zero-padded four-digit-year strings, JavaScript string
  comparison (used by `Array.prototype.sort` with no comparator) is exactly
  the lexicographic order on the `(y, m, d)` triple, and
  `new Date("YYYY-MM-DD")` parses to UTC midnight of that civil date, so the
  millisecond difference divided by 86400000 is the difference of civil day
  numbers (`toDays`).
* Machine numbers are modelled by `Nat`: all quantities involved
  (timestamps, day counts, word counts) are small nonnegative integers for
  which JavaScript float arithmetic is exact.
-/

/-! ## Calendar dates -/

/-- Model of a `"YYYY-MM-DD"` calendar-date string (see the header notes). -/
structure CalDate where
  y : Nat
  m : Nat
  d : Nat
deriving DecidableEq, Repr

/-- Gregorian leap-year test, as used by `Date.UTC` for the proleptic
Gregorian calendar. -/
def isLeap (y : Nat) : Bool := (y % 4 == 0 && y % 100 != 0) || (y % 400 == 0)

/-- Number of days of month `m` in year `y` (Gregorian). -/
def daysInMonth (y m : Nat) : Nat :=
  if m = 2 then (if isLeap y then 29 else 28)
  else if m = 4 ∨ m = 6 ∨ m = 9 ∨ m = 11 then 30
  else 31

/-- Days in the months of year `y` strictly before month `m`. -/
def daysBeforeMonth (y m : Nat) : Nat :=
  let L : Nat := if isLeap y then 1 else 0
  match m with
  | 1 => 0
  | 2 => 31
  | 3 => 59 + L
  | 4 => 90 + L
  | 5 => 120 + L
  | 6 => 151 + L
  | 7 => 181 + L
  | 8 => 212 + L
  | 9 => 243 + L
  | 10 => 273 + L
  | 11 => 304 + L
  | 12 => 334 + L
  | _ => 0

/-- Number of leap years in `[0, y)` (year 0 counts as a leap year). -/
def leapsBefore (y : Nat) : Nat := (y + 3) / 4 - (y + 99) / 100 + (y + 399) / 400

/-- Days in the years strictly before year `y` (proleptic Gregorian). -/
def daysBeforeYear (y : Nat) : Nat := 365 * y + leapsBefore y

/-- Civil day number of a date.  This equals the JavaScript epoch-day number
`Date.parse("YYYY-MM-DD") / 86400000` up to a fixed additive constant, which
cancels in every day difference the code computes. -/
def toDays (a : CalDate) : Nat := daysBeforeYear a.y + daysBeforeMonth a.y a.m + a.d

/-- A `CalDate` denotes an actual calendar date. -/
def CalDate.Valid (a : CalDate) : Prop :=
  1 ≤ a.m ∧ a.m ≤ 12 ∧ 1 ≤ a.d ∧ a.d ≤ daysInMonth a.y a.m

instance (a : CalDate) : Decidable a.Valid := by
  unfold CalDate.Valid; infer_instance

/-- Calendar successor of a date. -/
def nextDay (a : CalDate) : CalDate :=
  if a.d < daysInMonth a.y a.m then ⟨a.y, a.m, a.d + 1⟩
  else if a.m < 12 then ⟨a.y, a.m + 1, 1⟩
  else ⟨a.y + 1, 1, 1⟩

/-- JavaScript string order on zero-padded date strings: lexicographic on
`(y, m, d)`. -/
def dateLe (a b : CalDate) : Bool :=
  a.y < b.y || (a.y == b.y && (a.m < b.m || (a.m == b.m && a.d ≤ b.d)))

/-! Calendar arithmetic lemmas. -/

theorem daysInMonth_pos (y m : Nat) : 1 ≤ daysInMonth y m := by
  unfold daysInMonth
  split
  · split <;> omega
  · split <;> omega

theorem daysBeforeYear_succ (y : Nat) :
    daysBeforeYear (y + 1) = daysBeforeYear y + 365 + (if isLeap y then 1 else 0) := by
  unfold daysBeforeYear leapsBefore isLeap
  by_cases h4 : y % 4 = 0 <;> by_cases h100 : y % 100 = 0 <;> by_cases h400 : y % 400 = 0 <;>
    simp [h4, h100, h400] <;> omega

theorem daysBeforeYear_mono {y y' : Nat} (h : y ≤ y') :
    daysBeforeYear y ≤ daysBeforeYear y' := by
  induction y' with
  | zero =>
    have hy0 : y = 0 := by omega
    simp [hy0]
  | succ k ih =>
    rcases Nat.lt_or_ge y (k + 1) with hlt | hge
    · have h1 := ih (by omega)
      have h2 := daysBeforeYear_succ k
      split at h2 <;> omega
    · have hk : y = k + 1 := by omega
      simp [hk]

theorem daysBeforeMonth_step (y m : Nat) (h1 : 1 ≤ m) (h2 : m ≤ 11) :
    daysBeforeMonth y (m + 1) = daysBeforeMonth y m + daysInMonth y m := by
  interval_cases m <;> simp [daysBeforeMonth, daysInMonth] <;> split <;> omega

theorem daysBeforeMonth_mono (y : Nat) {m m' : Nat} (h1 : 1 ≤ m) (hlt : m < m')
    (h12 : m' ≤ 12) : daysBeforeMonth y m + daysInMonth y m ≤ daysBeforeMonth y m' := by
  induction m' with
  | zero => omega
  | succ k ih =>
    rcases Nat.lt_or_ge m k with hmk | hmk
    · have hk : 1 ≤ k := by omega
      have := ih hmk (by omega)
      have hstep := daysBeforeMonth_step y k (by omega) (by omega)
      have := daysInMonth_pos y k
      omega
    · have : m = k := by omega
      subst this
      exact Nat.le_of_eq (daysBeforeMonth_step y m h1 (by omega)).symm

theorem dayOfYear_le (y m d : Nat) (h1 : 1 ≤ m) (h2 : m ≤ 12) (h4 : d ≤ daysInMonth y m) :
    daysBeforeMonth y m + d ≤ 365 + (if isLeap y then 1 else 0) := by
  by_cases hL : isLeap y <;>
    interval_cases m <;> simp_all [daysBeforeMonth, daysInMonth] <;> omega

theorem toDays_mk (y m d : Nat) :
    toDays ⟨y, m, d⟩ = daysBeforeYear y + daysBeforeMonth y m + d := rfl

theorem nextDay_mk (y m d : Nat) :
    nextDay ⟨y, m, d⟩ = if d < daysInMonth y m then ⟨y, m, d + 1⟩
      else if m < 12 then ⟨y, m + 1, 1⟩ else ⟨y + 1, 1, 1⟩ := rfl

theorem valid_mk (y m d : Nat) :
    (CalDate.mk y m d).Valid ↔ 1 ≤ m ∧ m ≤ 12 ∧ 1 ≤ d ∧ d ≤ daysInMonth y m := Iff.rfl

theorem toDays_nextDay (a : CalDate) (h : a.Valid) : toDays (nextDay a) = toDays a + 1 := by
  obtain ⟨y, m, d⟩ := a
  obtain ⟨h1, h2, h3, h4⟩ := (valid_mk y m d).mp h
  rw [nextDay_mk]
  split
  · rename_i hd
    rw [toDays_mk, toDays_mk]
    omega
  · split
    · rename_i hd hm
      have hdm : d = daysInMonth y m := by omega
      have hstep := daysBeforeMonth_step y m h1 (by omega)
      rw [toDays_mk, toDays_mk]
      omega
    · rename_i hd hm
      have hm12 : m = 12 := by omega
      subst hm12
      have hdm : d = 31 := by
        have h31 : daysInMonth y 12 = 31 := by simp [daysInMonth]
        omega
      subst hdm
      have hstep := daysBeforeYear_succ y
      rw [toDays_mk, toDays_mk]
      have hdbm1 : daysBeforeMonth (y + 1) 1 = 0 := rfl
      have hdbm12 : daysBeforeMonth y 12 = 334 + (if isLeap y then 1 else 0) := by
        simp [daysBeforeMonth]
      split at hstep <;> simp_all

theorem nextDay_valid (a : CalDate) (h : a.Valid) : (nextDay a).Valid := by
  obtain ⟨y, m, d⟩ := a
  obtain ⟨h1, h2, h3, h4⟩ := (valid_mk y m d).mp h
  rw [nextDay_mk]
  split
  · rename_i hd
    exact (valid_mk y m (d + 1)).mpr ⟨h1, h2, by omega, by omega⟩
  · split
    · rename_i hd hm
      exact (valid_mk y (m + 1) 1).mpr ⟨by omega, by omega, le_refl 1, daysInMonth_pos y (m + 1)⟩
    · exact (valid_mk (y + 1) 1 1).mpr ⟨le_refl 1, by omega, le_refl 1, daysInMonth_pos (y + 1) 1⟩

theorem toDays_strict_mono (a b : CalDate) (ha : a.Valid) (hb : b.Valid)
    (hlt : a.y < b.y ∨ (a.y = b.y ∧ a.m < b.m) ∨ (a.y = b.y ∧ a.m = b.m ∧ a.d < b.d)) :
    toDays a < toDays b := by
  obtain ⟨ha1, ha2, ha3, ha4⟩ := ha
  obtain ⟨hb1, hb2, hb3, hb4⟩ := hb
  simp only [toDays]
  rcases hlt with hy | ⟨hy, hm⟩ | ⟨hy, hm, hd⟩
  · have hbound := dayOfYear_le a.y a.m a.d ha1 ha2 ha4
    have hsucc := daysBeforeYear_succ a.y
    have hmono := daysBeforeYear_mono (show a.y + 1 ≤ b.y by omega)
    by_cases hL : isLeap a.y <;> simp [hL] at hbound hsucc <;> omega
  · have hmm := daysBeforeMonth_mono a.y ha1 hm hb2
    rw [hy]
    rw [hy] at hmm ha4
    omega
  · rw [hy, hm]
    rw [hy, hm] at ha4
    omega

theorem toDays_inj (a b : CalDate) (ha : a.Valid) (hb : b.Valid)
    (h : toDays a = toDays b) : a = b := by
  by_contra hne
  have htri : a.y < b.y ∨ (a.y = b.y ∧ a.m < b.m) ∨ (a.y = b.y ∧ a.m = b.m ∧ a.d < b.d) ∨
      b.y < a.y ∨ (b.y = a.y ∧ b.m < a.m) ∨ (b.y = a.y ∧ b.m = a.m ∧ b.d < a.d) := by
    rcases a with ⟨ay, am, ad⟩
    rcases b with ⟨by_, bm, bd⟩
    simp only [CalDate.mk.injEq] at hne
    simp only
    omega
  rcases htri with h1 | h1 | h1 | h1 | h1 | h1
  · exact absurd h (Nat.ne_of_lt (toDays_strict_mono a b ha hb (Or.inl h1)))
  · exact absurd h (Nat.ne_of_lt (toDays_strict_mono a b ha hb (Or.inr (Or.inl h1))))
  · exact absurd h (Nat.ne_of_lt (toDays_strict_mono a b ha hb (Or.inr (Or.inr h1))))
  · exact absurd h.symm (Nat.ne_of_lt (toDays_strict_mono b a hb ha (Or.inl h1)))
  · exact absurd h.symm (Nat.ne_of_lt (toDays_strict_mono b a hb ha (Or.inr (Or.inl h1))))
  · exact absurd h.symm (Nat.ne_of_lt (toDays_strict_mono b a hb ha (Or.inr (Or.inr h1))))

/-- Bridge between the code's millisecond-difference test and the
calendar-successor relation: for actual calendar dates, the day difference is
exactly `1` precisely when the second date is the calendar successor of the
first. -/
theorem toDays_succ_iff_nextDay (a b : CalDate) (ha : a.Valid) (hb : b.Valid) :
    toDays b = toDays a + 1 ↔ b = nextDay a := by
  constructor
  · intro h
    have h2 := toDays_nextDay a ha
    exact toDays_inj b (nextDay a) hb (nextDay_valid a ha) (by omega)
  · intro h
    rw [h]
    exact toDays_nextDay a ha

/-! ## Sorting writing days

`StreakStorage.addWritingDay` runs `writingDays.sort()`, the default
`Array.prototype.sort`, which compares the `"YYYY-MM-DD"` strings; on
zero-padded date strings that comparison is `dateLe`.  The comparator is
total and antisymmetric up to equality of the triples, so the JS result is
the unique sorted rearrangement, modelled by insertion sort. -/

def insertSorted (x : CalDate) : List CalDate → List CalDate
  | [] => [x]
  | y :: t => if dateLe x y then x :: y :: t else y :: insertSorted x t

/-- Model of `writingDays.sort()` (see `insertSorted`). -/
def sortDates (l : List CalDate) : List CalDate :=
  match l with
  | [] => []
  | x :: t => insertSorted x (sortDates t)

theorem mem_insertSorted (a x : CalDate) (l : List CalDate) :
    a ∈ insertSorted x l ↔ a = x ∨ a ∈ l := by
  induction l with
  | nil => simp [insertSorted]
  | cons y t ih =>
    rw [insertSorted]
    split
    · simp
    · simp [ih]
      tauto

theorem mem_sortDates (a : CalDate) (l : List CalDate) : a ∈ sortDates l ↔ a ∈ l := by
  induction l with
  | nil => simp [sortDates]
  | cons x t ih => simp [sortDates, mem_insertSorted, ih]

theorem insertSorted_perm (x : CalDate) (l : List CalDate) :
    (insertSorted x l).Perm (x :: l) := by
  induction l with
  | nil => rw [insertSorted]
  | cons y t ih =>
    rw [insertSorted]
    split
    · exact List.Perm.refl _
    · exact (ih.cons y).trans (List.Perm.swap x y t)

theorem sortDates_perm (l : List CalDate) : (sortDates l).Perm l := by
  induction l with
  | nil => rw [sortDates]
  | cons x t ih => exact (insertSorted_perm x (sortDates t)).trans (ih.cons x)

theorem count_sortDates (a : CalDate) (l : List CalDate) :
    (sortDates l).count a = l.count a :=
  (sortDates_perm l).count_eq a

/-! ## The streak walk and its specification

The loop in `StreakStorage.addWritingDay` (storage.js lines 196-209) walks
the sorted array from its last index downward, incrementing the streak while
the millisecond gap between neighbouring dates is exactly one day and
stopping at the first other gap.  `streakWalk` consumes the reversed
(descending) list; `currentStreak` starts at 1 and the loop body never runs
for lists shorter than 2, which the catch-all branch mirrors.  The `Nat`
subtraction agrees with the JS float subtraction here: when the minuend is
not larger, both sides produce a value different from `1`. -/

def streakWalk : List CalDate → Nat
  | a :: b :: rest => if toDays a - toDays b = 1 then streakWalk (b :: rest) + 1 else 1
  | _ => 1

/-- Specification-side notion for claim C2: the length of the trailing run of
calendar-consecutive dates of a (chronologically ascending) list, where
consecutive means literally `nextDay`.  The run grows by one exactly when the
appended date is the calendar successor of the previous last date, and
restarts at length 1 otherwise. -/
def trailingRunLen : List CalDate → Nat
  | [] => 0
  | [_] => 1
  | a :: b :: rest =>
    let t := trailingRunLen (b :: rest)
    if t = (b :: rest).length ∧ b = nextDay a then t + 1 else t

theorem trailingRunLen_cons_cons (a b : CalDate) (rest : List CalDate) :
    trailingRunLen (a :: b :: rest) =
      if trailingRunLen (b :: rest) = (b :: rest).length ∧ b = nextDay a
      then trailingRunLen (b :: rest) + 1 else trailingRunLen (b :: rest) := rfl

theorem trailingRunLen_le_length (l : List CalDate) : trailingRunLen l ≤ l.length := by
  induction l with
  | nil => exact Nat.le_refl 0
  | cons a t ih =>
    cases t with
    | nil => exact Nat.le_refl 1
    | cons b rest =>
      rw [trailingRunLen_cons_cons]
      simp only [List.length_cons] at ih ⊢
      split
      · omega
      · omega

theorem trailingRunLen_append (l : List CalDate) (a b : CalDate)
    (hb : l.getLast? = some b) :
    trailingRunLen (l ++ [a]) = if a = nextDay b then trailingRunLen l + 1 else 1 := by
  induction l with
  | nil => simp at hb
  | cons x t ih =>
    cases t with
    | nil =>
      simp at hb
      subst hb
      rw [show ([x] ++ [a]) = x :: a :: ([] : List CalDate) from rfl, trailingRunLen_cons_cons]
      have h1 : trailingRunLen (a :: ([] : List CalDate)) = 1 := rfl
      have h2 : trailingRunLen (x :: ([] : List CalDate)) = 1 := rfl
      rw [h1, h2]
      simp only [List.length_cons, List.length_nil]
      by_cases h : a = nextDay x <;> simp [h]
    | cons y t' =>
      have hb' : (y :: t').getLast? = some b := by
        rwa [List.getLast?_cons_cons] at hb
      have ihy := ih hb'
      have hlen := trailingRunLen_le_length (y :: t')
      simp only [List.length_cons] at hlen
      rw [show ((x :: y :: t') ++ [a]) = x :: ((y :: t') ++ [a]) from rfl,
          show ((y :: t') ++ [a]) = y :: (t' ++ [a]) from rfl, trailingRunLen_cons_cons,
          show (y :: (t' ++ [a])) = ((y :: t') ++ [a]) from rfl, ihy, trailingRunLen_cons_cons]
      simp only [List.length_cons, List.length_append, List.length_nil]
      by_cases hnd : a = nextDay b
      · simp only [if_pos hnd]
        by_cases hy : y = nextDay x
        · by_cases hTR : trailingRunLen (y :: t') = t'.length + 1
          · have hc1 : trailingRunLen (y :: t') + 1 = t'.length + 1 + 1 ∧ y = nextDay x :=
              ⟨by omega, hy⟩
            have hc2 : trailingRunLen (y :: t') = t'.length + 1 ∧ y = nextDay x := ⟨hTR, hy⟩
            rw [if_pos hc1, if_pos hc2]
          · have hc1 : ¬(trailingRunLen (y :: t') + 1 = t'.length + 1 + 1 ∧ y = nextDay x) :=
              fun hc => hTR (by have := hc.1; omega)
            have hc2 : ¬(trailingRunLen (y :: t') = t'.length + 1 ∧ y = nextDay x) :=
              fun hc => hTR hc.1
            rw [if_neg hc1, if_neg hc2]
        · have hc1 : ¬(trailingRunLen (y :: t') + 1 = t'.length + 1 + 1 ∧ y = nextDay x) :=
            fun hc => hy hc.2
          have hc2 : ¬(trailingRunLen (y :: t') = t'.length + 1 ∧ y = nextDay x) :=
            fun hc => hy hc.2
          rw [if_neg hc1, if_neg hc2]
      · simp only [if_neg hnd]
        have hc1 : ¬((1 : Nat) = t'.length + 1 + 1 ∧ y = nextDay x) :=
          fun hc => by have := hc.1; omega
        rw [if_neg hc1]

/-- The backward walk of the code computes exactly the trailing-run length of
the ascending list, provided every element is an actual calendar date. -/
theorem streakWalk_reverse_eq (l : List CalDate) (hv : ∀ x ∈ l, x.Valid) (hne : l ≠ []) :
    streakWalk l.reverse = trailingRunLen l := by
  induction l using List.reverseRecOn with
  | nil => exact absurd rfl hne
  | append_singleton t a ih =>
    by_cases htne0 : t = []
    · subst htne0
      rfl
    · have htne : t ≠ [] := htne0
      have hrev : (t ++ [a]).reverse = a :: t.reverse := by simp
      have hlast : t.getLast? = some (t.getLast htne) := List.getLast?_eq_getLast t htne
      have hrt : t.reverse = t.getLast htne :: (t.dropLast).reverse := by
        conv_lhs => rw [← List.dropLast_append_getLast htne]
        simp
      have hvt : ∀ x ∈ t, x.Valid := fun x hx => hv x (by simp [List.mem_append]; exact Or.inl hx)
      have hva : a.Valid := hv a (by simp)
      have hvlast : (t.getLast htne).Valid := hvt _ (List.getLast_mem htne)
      have hwalk : streakWalk (a :: t.reverse) =
          if toDays a - toDays (t.getLast htne) = 1 then streakWalk t.reverse + 1 else 1 := by
        rw [hrt]
        rw [streakWalk]
      have hbridge : (toDays a - toDays (t.getLast htne) = 1) ↔ (a = nextDay (t.getLast htne)) := by
        constructor
        · intro hdiff
          have h1 : toDays a = toDays (t.getLast htne) + 1 := by omega
          exact ((toDays_succ_iff_nextDay (t.getLast htne) a hvlast hva).mp h1)
        · intro hnd
          have h1 := (toDays_succ_iff_nextDay (t.getLast htne) a hvlast hva).mpr hnd
          omega
      rw [hrev, hwalk, trailingRunLen_append t a (t.getLast htne) hlast]
      by_cases hc : a = nextDay (t.getLast htne)
      · rw [if_pos (hbridge.mpr hc), if_pos hc, ih hvt htne]
      · rw [if_neg (fun hd => hc (hbridge.mp hd)), if_neg hc]

/-! ## Word counting

`countWords` (helpers) computes
`text.trim().split(/\x7bwhitespace runs\x7d/).filter(w => w.length > 0).length`,
that is, the number of maximal non-whitespace runs of the text.  `wordsAux`
scans the character list accumulating the current run. -/

def isWs (c : Char) : Bool := c.isWhitespace

def wordsAux : List Char → List Char → List (List Char)
  | [], cur => if cur.isEmpty then [] else [cur.reverse]
  | c :: cs, cur =>
    if isWs c then (if cur.isEmpty then wordsAux cs [] else cur.reverse :: wordsAux cs [])
    else wordsAux cs (c :: cur)

/-- Model of `countWords` from the helper utilities. -/
def countWords (text : String) : Nat := (wordsAux text.toList []).length

/-- Model of the `validateWritingInput` guard `text.trim().length === 0`:
the text consists of whitespace only. -/
def jsTrimEmpty (text : String) : Bool := text.toList.all isWs

/-! ## Configuration constants (constants.js) -/

def MIN_WORDS_FOR_STREAK : Nat := 25

def MAX_RECENT_PROMPTS : Nat := 10

/-! ## Entry identifiers and loose equality

`EntriesStorage.saveEntry` assigns `id: Date.now()`, a number; the history UI
re-injects ids into `deleteEntry`/`getEntryById` as decimal strings
(`onclick="deleteEntry('${entry.id}')"` in ui.js), and both lookups compare
with the loose operators `!=` / `==`.  An id value is therefore either a
number or a decimal numeral string; the string `"d_0 d_1 ..."` is abstracted
as its list of decimal digits, least significant first (the convention of
`Nat.digits`).  JavaScript loose equality between a number and a string
converts the string with `ToNumber`, which on a decimal numeral yields its
value. -/

inductive IdVal where
  | num (n : Nat)
  | str (digits : List Nat)
deriving DecidableEq, Repr

/-- `ToNumber` on a decimal numeral string given as its digit list. -/
def toNumber (ds : List Nat) : Nat := Nat.ofDigits 10 ds

/-- JavaScript loose equality `==` restricted to the id values above. -/
def looseEq : IdVal → IdVal → Bool
  | .num a, .num b => a == b
  | .str a, .str b => a == b
  | .num a, .str s => a == toNumber s
  | .str s, .num a => toNumber s == a

/-- One archive record, as built by `EntriesStorage.saveEntry`. -/
structure Entry where
  id : IdVal
  date : String
  prompt : String
  text : String
  wordCount : Nat
  mode : String
deriving DecidableEq, Repr

/-- The streak ledger (`StreakStorage`). -/
structure StreakData where
  currentStreak : Nat
  longestStreak : Nat
  lastWriteDate : Option CalDate
  writingDays : List CalDate
deriving DecidableEq, Repr

/-- Default ledger returned by `StreakStorage.getStreakData` when nothing is
stored. -/
def defaultStreakData : StreakData :=
  { currentStreak := 0, longestStreak := 0, lastWriteDate := none, writingDays := [] }

/-! ## The storage manager

`StorageManager` wraps `localStorage` with try/catch.  `JStore` models the
raw key-value engine for one value type (the JSON payload type is irrelevant
to the wrapper, see the header notes for the meaning of the two failure
flags and of the `Option (Option _)` slots). -/

structure JStore (α : Type) where
  available : Bool
  full : Bool
  items : List (String × Option α)

/-- Model of `StorageManager.get(key, defaultValue)`: `localStorage.getItem`
plus `JSON.parse` under a try/catch that degrades every failure (engine
throws, key absent, undecodable payload) to the default value. -/
def StorageManager.get (st : JStore α) (key : String) (defaultValue : α) : α :=
  if st.available then
    match st.items.lookup key with
    | some (some v) => v
    | some none => defaultValue
    | none => defaultValue
  else defaultValue

/-- Model of `StorageManager.set(key, value)`: `JSON.stringify` plus
`localStorage.setItem` under a try/catch returning a success flag.  A store
whose engine throws on access or on write leaves the items unchanged and
reports `false`. -/
def StorageManager.set (st : JStore α) (key : String) (value : α) : JStore α × Bool :=
  if st.available && !st.full then
    ({ st with items := (key, some value) :: (st.items.filter (fun kv => kv.1 ≠ key)) }, true)
  else (st, false)

/-! ## The typed app store

The storage keys `writingEntries`, `writingStreak` and `recentPrompts` are
pairwise distinct constants, so `localStorage` restricted to the keys the
typed stores use is modelled with one typed slot per key (header notes).
`mgrGet`/`mgrSet` are the per-slot specialisations of `StorageManager.get`
and `StorageManager.set`. -/

structure AppStore where
  available : Bool
  full : Bool
  entriesSlot : Option (Option (List Entry))
  streakSlot : Option (Option StreakData)
  recentSlot : Option (Option (List String))
deriving DecidableEq, Repr

/-- Per-slot `StorageManager.get` (same semantics as `StorageManager.get`). -/
def mgrGet (available : Bool) (slot : Option (Option α)) (defaultValue : α) : α :=
  if available then
    match slot with
    | some (some v) => v
    | _ => defaultValue
  else defaultValue

/-- Per-slot `StorageManager.set` (same semantics as `StorageManager.set`). -/
def mgrSet (available full : Bool) (slot : Option (Option α)) (value : α) :
    Option (Option α) × Bool :=
  if available && !full then (some (some value), true) else (slot, false)

/-! ## EntriesStorage -/

/-- Model of `EntriesStorage.getEntries()`. -/
def EntriesStorage.getEntries (st : AppStore) : List Entry :=
  mgrGet st.available st.entriesSlot []

/-- Model of `EntriesStorage.saveEntry(prompt, text, wordCount, mode)`.
The ambient clock reads `Date.now()` and `new Date().toISOString()` are
passed in as the explicit arguments `now` and `iso`. -/
def EntriesStorage.saveEntry (st : AppStore) (promptText text : String) (wordCount : Nat)
    (mode : String) (now : Nat) (iso : String) : AppStore × Entry :=
  let entries := EntriesStorage.getEntries st
  let entry : Entry :=
    { id := .num now, date := iso, prompt := promptText, text := text,
      wordCount := wordCount, mode := mode }
  let r := mgrSet st.available st.full st.entriesSlot (entry :: entries)
  ({ st with entriesSlot := r.1 }, entry)

/-- Model of `EntriesStorage.deleteEntry(entryId)`; the filter keeps entries
with `e.id != entryId` (loose inequality). -/
def EntriesStorage.deleteEntry (st : AppStore) (entryId : IdVal) : AppStore × Bool :=
  let entries := EntriesStorage.getEntries st
  let filteredEntries := entries.filter (fun e => !(looseEq e.id entryId))
  let r := mgrSet st.available st.full st.entriesSlot filteredEntries
  ({ st with entriesSlot := r.1 }, r.2)

/-- Model of `EntriesStorage.getEntryById(entryId)`; `find` with loose
equality, `|| null` becoming `none`. -/
def EntriesStorage.getEntryById (st : AppStore) (entryId : IdVal) : Option Entry :=
  (EntriesStorage.getEntries st).find? (fun e => looseEq e.id entryId)

/-! ## StreakStorage -/

/-- Model of `StreakStorage.getStreakData()`. -/
def StreakStorage.getStreakData (st : AppStore) : StreakData :=
  mgrGet st.available st.streakSlot defaultStreakData

/-- Model of `StreakStorage.saveStreakData(data)`. -/
def StreakStorage.saveStreakData (st : AppStore) (data : StreakData) : AppStore × Bool :=
  let r := mgrSet st.available st.full st.streakSlot data
  ({ st with streakSlot := r.1 }, r.2)

/-- Model of `StreakStorage.addWritingDay(date)` (storage.js lines 183-220):
duplicate-day early return, push, in-place sort, backward walk for
`currentStreak`, conditional `longestStreak` update, save. -/
def StreakStorage.addWritingDay (st : AppStore) (date : CalDate) : AppStore × StreakData :=
  let streakData := StreakStorage.getStreakData st
  if date ∈ streakData.writingDays then (st, streakData)
  else
    let sortedDays := sortDates (streakData.writingDays ++ [date])
    let currentStreak := streakWalk sortedDays.reverse
    let longestStreak :=
      if streakData.longestStreak < currentStreak then currentStreak
      else streakData.longestStreak
    let newData : StreakData :=
      { currentStreak := currentStreak, longestStreak := longestStreak,
        lastWriteDate := some date, writingDays := sortedDays }
    ((StreakStorage.saveStreakData st newData).1, newData)

/-! ## PreferencesStorage (recent prompts) -/

/-- Model of `PreferencesStorage.getRecentPrompts()`. -/
def PreferencesStorage.getRecentPrompts (st : AppStore) : List String :=
  mgrGet st.available st.recentSlot []

/-- Model of `PreferencesStorage.setRecentPrompts(prompts)`. -/
def PreferencesStorage.setRecentPrompts (st : AppStore) (prompts : List String) :
    AppStore × Bool :=
  let r := mgrSet st.available st.full st.recentSlot prompts
  ({ st with recentSlot := r.1 }, r.2)

/-! ## StreakManager and the explicit save/copy actions -/

/-- Model of `StreakManager.updateStreak(wordCount)`: entries below the
minimum word count do not touch the ledger; otherwise the current calendar
date (`getCurrentDateString()`, passed as `today`) is added. -/
def StreakManager.updateStreak (st : AppStore) (wordCount : Nat) (today : CalDate) :
    AppStore × Option StreakData :=
  if wordCount < MIN_WORDS_FOR_STREAK then (st, none)
  else
    let r := StreakStorage.addWritingDay st today
    (r.1, some r.2)

/-- Shared persistence core of `ActionsManager.saveEntry` and
`ActionsManager.copyToClipboard` (storage.js lines 334-349 and 384-399):
validate that the text is not whitespace-only, then update the streak and
save the entry to history only when the word count reaches
`MIN_WORDS_FOR_STREAK`.  The returned flag is the validation outcome; the
clipboard/download side effects carry no persistent state and are out of
scope.  `today`, `now` and `iso` are the ambient clock readings. -/
def ActionsManager.persistCore (st : AppStore) (promptText text mode : String)
    (today : CalDate) (now : Nat) (iso : String) : AppStore × Bool :=
  if jsTrimEmpty text then (st, false)
  else
    let wordCount := countWords text
    if MIN_WORDS_FOR_STREAK ≤ wordCount then
      let st1 := (StreakManager.updateStreak st wordCount today).1
      let st2 := (EntriesStorage.saveEntry st1 promptText text wordCount mode now iso).1
      (st2, true)
    else (st, true)

/-! ## The prompt engine (prompts.js)

A category value `none` models a missing (`undefined`) field; `some []`
models a present but empty array, which is truthy in JavaScript — the
distinction matters in `prompts.career || FALLBACK_PROMPTS.career`, where an
existing empty array is NOT replaced by the fallback.  `timeAware` and the
seasonal table are string-keyed objects modelled as association lists. -/

structure Moods where
  reflective : Option (List String)
  grateful : Option (List String)
  energized : Option (List String)
  creative : Option (List String)
  struggling : Option (List String)
deriving DecidableEq, Repr

structure Seasonal where
  current : Option String
  table : List (String × List String)
deriving DecidableEq, Repr

structure PromptCategories where
  life : Option (List String)
  career : Option (List String)
  timeAware : Option (List (String × List String))
  moods : Option Moods
  seasonal : Option Seasonal
deriving DecidableEq, Repr

/-- The embedded `FALLBACK_PROMPTS.life` list (constants.js). -/
def fallbackLife : List String :=
  ["What's one thing that made you smile today?",
   "Describe a moment when you felt completely at peace.",
   "What's something you're grateful for right now?",
   "If you could tell your past self one thing, what would it be?",
   "What's a small win you had recently?",
   "Describe your ideal Sunday morning.",
   "What's something new you learned this week?",
   "How do you want to feel by the end of today?",
   "What's a challenge you're facing, and how might you approach it?",
   "Describe a person who has positively impacted your life.",
   "What's something you're looking forward to?",
   "How has your perspective on something changed recently?",
   "What would you do if you knew you couldn't fail?",
   "What's a habit you'd like to develop?",
   "How do you show kindness to yourself?",
   "What's something that always makes you laugh?",
   "Describe a place where you feel most like yourself.",
   "What's the best advice you've ever received?",
   "How do you like to celebrate small victories?",
   "What's something you're curious about right now?"]

/-- The embedded `FALLBACK_PROMPTS.career` list (constants.js). -/
def fallbackCareer : List String :=
  ["What's the most valuable skill you've developed this year?",
   "Describe a project you're proud of and why.",
   "What's a professional challenge you're currently navigating?",
   "How do you define success in your career?",
   "What's something you want to learn to advance professionally?",
   "Describe your ideal work environment.",
   "What's a piece of feedback that changed how you work?",
   "How do you maintain work-life balance?",
   "What's a professional relationship that has been meaningful to you?",
   "Describe a time when you had to step outside your comfort zone at work."]

/-- `FALLBACK_PROMPTS` as a category record: only the two mode categories
exist on the fallback object. -/
def FALLBACK_PROMPTS : PromptCategories :=
  { life := some fallbackLife, career := some fallbackCareer,
    timeAware := none, moods := none, seasonal := none }

/-- `MESSAGES.LOADING_PROMPTS` (constants.js). -/
def LOADING_PROMPTS : String := "Loading your writing prompt..."

/-- Mutable state of the `PromptsManager` instance.  `externalPrompts` holds
the `prompts` member of the fetched document (or `none` while `null`). -/
structure PromptsState where
  externalPrompts : Option PromptCategories
  promptsLoaded : Bool
  currentMode : String
  lastUsedPrompts : List String
deriving DecidableEq, Repr

/-- Model of `PromptsManager.getPrompts()`. -/
def PromptsManager.getPrompts (pm : PromptsState) : PromptCategories :=
  match pm.externalPrompts with
  | some p => p
  | none => FALLBACK_PROMPTS

/-- The structural validation of `loadExternalPrompts` (prompts.js lines
42-46): the parsed document must have truthy `prompts.life` and
`prompts.career` members; any array — including an empty one — is truthy,
so only presence is checked.  On validation failure (or fetch failure) the
manager substitutes `FALLBACK_PROMPTS`; `promptsLoaded` becomes true either
way.  `fetched = none` models a failed or timed-out fetch. -/
def PromptsManager.loadOutcome (fetched : Option PromptCategories) :
    Option PromptCategories × Bool :=
  match fetched with
  | some p => if p.life.isSome && p.career.isSome then (some p, true)
              else (some FALLBACK_PROMPTS, false)
  | none => (some FALLBACK_PROMPTS, false)

/-- Model of `PromptsManager.trackUsedPrompt(prompt)`: prepend, truncate to
`MAX_RECENT_PROMPTS`, persist. -/
def PromptsManager.trackUsedPrompt (pm : PromptsState) (st : AppStore) (p : String) :
    PromptsState × AppStore :=
  let lu := p :: pm.lastUsedPrompts
  let lu := if MAX_RECENT_PROMPTS < lu.length then lu.take MAX_RECENT_PROMPTS else lu
  ({ pm with lastUsedPrompts := lu }, (PreferencesStorage.setRecentPrompts st lu).1)

/-- Model of `PromptsManager.filterRecentPrompts(promptArray)` (prompts.js
lines 104-109). -/
def PromptsManager.filterRecentPrompts (lastUsedPrompts : List String)
    (promptArray : List String) : List String :=
  if lastUsedPrompts.length = 0 then promptArray
  else
    let filtered := promptArray.filter (fun p => !(lastUsedPrompts.contains p))
    if 0 < filtered.length then filtered else promptArray

/-- Model of `getTimeCategory()` (helpers); `hour` is `getHours()` and `day`
is `getDay()` (0 = Sunday). -/
def getTimeCategory (hour day : Nat) : Option String :=
  if 5 ≤ hour ∧ hour < 12 then some "morning"
  else if 18 ≤ hour ∨ hour < 5 then some "evening"
  else if day = 1 then some "monday"
  else if day = 5 then some "friday"
  else if day = 0 ∨ day = 6 then some "weekend"
  else none

/-- Optional-chaining access `prompts.moods?.f || []`. -/
def moodList (p : PromptCategories) (f : Moods → Option (List String)) : List String :=
  match p.moods with
  | some ms => (f ms).getD []
  | none => []

/-- Model of `PromptsManager.getMoodAwarePrompts()` (prompts.js lines
127-169); the ambient `new Date()` readings are the `hour`/`day` args. -/
def PromptsManager.getMoodAwarePrompts (pm : PromptsState) (hour day : Nat) : List String :=
  let prompts := PromptsManager.getPrompts pm
  if pm.currentMode = "personal" then
    if 18 ≤ hour ∨ hour < 6 then
      (moodList prompts (·.reflective)).take 3 ++ (moodList prompts (·.grateful)).take 3
    else if 6 ≤ hour ∧ hour < 12 then
      (moodList prompts (·.energized)).take 3 ++ (moodList prompts (·.creative)).take 2
    else
      (moodList prompts (·.reflective)).take 2 ++ (moodList prompts (·.creative)).take 2
  else
    (moodList prompts (·.energized)).take 3 ++
      (if day = 1 then (moodList prompts (·.struggling)).take 2 else [])

/-- Model of `PromptsManager.getSeasonalPrompts()` (prompts.js lines
115-121). -/
def PromptsManager.getSeasonalPrompts (pm : PromptsState) : List String :=
  let prompts := PromptsManager.getPrompts pm
  match prompts.seasonal with
  | some s =>
    match s.current with
    | some c => if c = "" then [] else (s.table.lookup c).getD []
    | none => []
  | none => []

/-- Steps 1-6 of `PromptsManager.generateSmartPrompt()` (prompts.js lines
196-232): base mode category, time-aware mixing, mood-aware mixing,
seasonal mixing, recency filter, final fallback.
`Math.floor(timePrompts.length * 0.3)` is modelled as `3 * length / 10`;
the IEEE representation of `0.3` makes the original one smaller when
`length` is a positive multiple of 10, which no claim below depends on. -/
def PromptsManager.timeAwareMix (p : PromptCategories) (hour day : Nat)
    (promptArray : List String) : List String :=
  match getTimeCategory hour day, p.timeAware with
  | some cat, some ta =>
    match ta.lookup cat with
    | some timePrompts => promptArray ++ timePrompts.take (3 * timePrompts.length / 10)
    | none => promptArray
  | _, _ => promptArray

def PromptsManager.assemblePromptArray (pm : PromptsState) (hour day : Nat) : List String :=
  let prompts := PromptsManager.getPrompts pm
  let promptArray :=
    if pm.currentMode = "professional" then prompts.career.getD fallbackCareer
    else prompts.life.getD fallbackLife
  let promptArray := PromptsManager.timeAwareMix prompts hour day promptArray
  let promptArray := promptArray ++ PromptsManager.getMoodAwarePrompts pm hour day
  let seasonalPrompts := PromptsManager.getSeasonalPrompts pm
  let promptArray :=
    if 0 < seasonalPrompts.length then promptArray ++ seasonalPrompts.take 3
    else promptArray
  let promptArray := PromptsManager.filterRecentPrompts pm.lastUsedPrompts promptArray
  if promptArray.length = 0 then
    (if pm.currentMode = "professional" then fallbackCareer else fallbackLife)
  else promptArray

/-- Model of `PromptsManager.generateSmartPrompt()` (prompts.js lines
191-240): the guard for a not-yet-loaded pool, the candidate assembly
(`assemblePromptArray`), random selection and recency tracking.  The
ambient inputs are explicit: `hour`/`day` are the `Date` readings and `k`
determines `Math.floor(Math.random() * length)` as `k % length`, which
ranges over exactly the indices the original can produce.  The returned
`Option` is `none` exactly when the original would return `undefined`
(indexing an empty array); the final fallback step makes that impossible,
so the unreachable branch skips the tracking call. -/
def PromptsManager.generateSmartPrompt (pm : PromptsState) (st : AppStore)
    (hour day k : Nat) : Option String × PromptsState × AppStore :=
  if !pm.promptsLoaded then (some LOADING_PROMPTS, pm, st)
  else
    let promptArray := PromptsManager.assemblePromptArray pm hour day
    match promptArray.get? (k % promptArray.length) with
    | some selectedPrompt =>
      let r := PromptsManager.trackUsedPrompt pm st selectedPrompt
      (some selectedPrompt, r.1, r.2)
    | none => (none, pm, st)

/-! ## Concrete stores used by witnesses and counterexamples -/

/-- A fresh writable store: storage works, nothing stored yet. -/
def stEmpty : AppStore :=
  { available := true, full := false, entriesSlot := none, streakSlot := none,
    recentSlot := none }

def dJan1 : CalDate := ⟨2025, 1, 1⟩
def dJan2 : CalDate := ⟨2025, 1, 2⟩
def dJan3 : CalDate := ⟨2025, 1, 3⟩
def dJan4 : CalDate := ⟨2025, 1, 4⟩
def dJan6 : CalDate := ⟨2025, 1, 6⟩

def sdC3 : StreakData :=
  { currentStreak := 1, longestStreak := 1, lastWriteDate := some dJan1,
    writingDays := [dJan1] }

def stC3 : AppStore :=
  { available := true, full := false, entriesSlot := none,
    streakSlot := some (some sdC3), recentSlot := none }

/-! ## Claim theorems -/

theorem addWritingDay_of_mem (st : AppStore) (d : CalDate)
    (h : d ∈ (StreakStorage.getStreakData st).writingDays) :
    StreakStorage.addWritingDay st d = (st, StreakStorage.getStreakData st) := by
  unfold StreakStorage.addWritingDay
  simp [h]

/-- Claim C3: the streak update is idempotent per calendar day — if the date
passed to `addWritingDay` is already present in `writingDays`, the operation
returns the ledger unchanged and the persisted store is not modified. -/
theorem C3_addWritingDay_idempotent (st : AppStore) (d : CalDate)
    (h : d ∈ (StreakStorage.getStreakData st).writingDays) :
    StreakStorage.addWritingDay st d = (st, StreakStorage.getStreakData st) :=
  addWritingDay_of_mem st d h

/-- Witness for C3 at a concrete ledger already containing the date. -/
theorem C3_witness :
    StreakStorage.addWritingDay stC3 dJan1 = (stC3, StreakStorage.getStreakData stC3) :=
  C3_addWritingDay_idempotent stC3 dJan1 (by decide)

/-- Claim C7: `StorageManager.get` returns the default when the key is
absent, when the store is unavailable, or when decoding fails, and never
raises (it is a total function into the value type); `StorageManager.set`
returns `false` rather than throwing when the engine is unavailable or
full. -/
theorem C7_storage_failure_defaults {α : Type} (st : JStore α) (key : String)
    (defaultValue v : α) :
    (st.items.lookup key = none → StorageManager.get st key defaultValue = defaultValue) ∧
    (st.available = false → StorageManager.get st key defaultValue = defaultValue) ∧
    (st.items.lookup key = some none → StorageManager.get st key defaultValue = defaultValue) ∧
    ((st.available = false ∨ st.full = true) → (StorageManager.set st key v).2 = false) := by
  refine ⟨?_, ?_, ?_, ?_⟩
  · intro h
    simp [StorageManager.get, h]
  · intro h
    simp [StorageManager.get, h]
  · intro h
    simp [StorageManager.get, h]
  · intro h
    rcases h with h | h <;> simp [StorageManager.set, h]

def jsDown : JStore Nat := { available := false, full := false, items := [] }

/-- Witness for C7 at a concrete unavailable store. -/
theorem C7_witness :
    StorageManager.get jsDown "writingEntries" 7 = 7 ∧
      (StorageManager.set jsDown "writingEntries" 1).2 = false :=
  ⟨(C7_storage_failure_defaults jsDown "writingEntries" 7 1).2.1 rfl,
   (C7_storage_failure_defaults jsDown "writingEntries" 7 1).2.2.2 (Or.inl rfl)⟩

/-- Claim C8: deleting an id that loosely matches no stored entry leaves the
stored entries unchanged (same entries, same order) and raises no error
(`deleteEntry` is total; this holds whether or not the write succeeds). -/
theorem C8_delete_missing_id_noop (st : AppStore) (entryId : IdVal)
    (h : ∀ e ∈ EntriesStorage.getEntries st, looseEq e.id entryId = false) :
    EntriesStorage.getEntries (EntriesStorage.deleteEntry st entryId).1 =
      EntriesStorage.getEntries st := by
  have hfe : (EntriesStorage.getEntries st).filter (fun e => !(looseEq e.id entryId)) =
      EntriesStorage.getEntries st :=
    List.filter_eq_self.mpr (fun e he => by rw [h e he]; rfl)
  show EntriesStorage.getEntries
      { st with entriesSlot := (mgrSet st.available st.full st.entriesSlot
          ((EntriesStorage.getEntries st).filter (fun e => !(looseEq e.id entryId)))).1 } =
    EntriesStorage.getEntries st
  rw [hfe]
  unfold EntriesStorage.getEntries mgrSet
  by_cases hav : st.available
  · by_cases hfull : st.full
    · simp [hav, hfull]
    · simp [hav, hfull, mgrGet]
  · simp [hav, mgrGet]

def entA : Entry :=
  { id := .num 5, date := "2025-01-01T09:00:00.000Z", prompt := "p", text := "t",
    wordCount := 30, mode := "personal" }

def stC8 : AppStore :=
  { available := true, full := false, entriesSlot := some (some [entA]),
    streakSlot := none, recentSlot := none }

/-- Witness for C8 at a concrete archive and a missing id. -/
theorem C8_witness :
    EntriesStorage.getEntries (EntriesStorage.deleteEntry stC8 (IdVal.num 7)).1 =
      EntriesStorage.getEntries stC8 :=
  C8_delete_missing_id_noop stC8 (IdVal.num 7) (by decide)

/-- Claim C6: the recency filter removes every candidate present in the
recent-prompt cache, except that when the filtered list would be empty it
returns the pre-filter list unchanged; in particular a non-empty candidate
list never filters down to the empty list. -/
theorem C6_filter_recent_spec (lastUsedPrompts promptArray : List String) :
    (PromptsManager.filterRecentPrompts lastUsedPrompts promptArray =
       if (promptArray.filter (fun p => !(lastUsedPrompts.contains p))).length = 0
       then promptArray
       else promptArray.filter (fun p => !(lastUsedPrompts.contains p))) ∧
    (promptArray ≠ [] → PromptsManager.filterRecentPrompts lastUsedPrompts promptArray ≠ []) ∧
    (∀ p, p ∈ lastUsedPrompts →
      (promptArray.filter (fun p => !(lastUsedPrompts.contains p))).length ≠ 0 →
      p ∉ PromptsManager.filterRecentPrompts lastUsedPrompts promptArray) := by
  have hmain : PromptsManager.filterRecentPrompts lastUsedPrompts promptArray =
      if (promptArray.filter (fun p => !(lastUsedPrompts.contains p))).length = 0
      then promptArray
      else promptArray.filter (fun p => !(lastUsedPrompts.contains p)) := by
    unfold PromptsManager.filterRecentPrompts
    by_cases h0 : lastUsedPrompts.length = 0
    · have hnil : lastUsedPrompts = [] := List.length_eq_zero.mp h0
      subst hnil
      have hid : promptArray.filter (fun p => !(([] : List String).contains p)) = promptArray :=
        List.filter_eq_self.mpr (fun a _ => rfl)
      have hc : ([] : List String).length = 0 := rfl
      rw [if_pos hc, hid]
      split <;> rfl
    · rw [if_neg h0]
      show (if 0 < (promptArray.filter (fun p => !(lastUsedPrompts.contains p))).length
            then promptArray.filter (fun p => !(lastUsedPrompts.contains p))
            else promptArray) = _
      rcases Nat.eq_zero_or_pos
          (promptArray.filter (fun p => !(lastUsedPrompts.contains p))).length with hz | hp
      · rw [if_neg (by omega), if_pos hz]
      · rw [if_pos hp, if_neg (by omega)]
  refine ⟨hmain, ?_, ?_⟩
  · intro hne
    rw [hmain]
    split
    · exact hne
    · rename_i hlen
      intro hc
      rw [hc] at hlen
      exact hlen rfl
  · intro p hp hlen
    rw [hmain, if_neg hlen]
    intro hmem
    have := (List.mem_filter.mp hmem).2
    simp at this
    exact this hp

/-- Witness for C6: a recently used candidate is removed while alternatives
exist, and a candidate list that would filter to nothing stays non-empty. -/
theorem C6_witness :
    PromptsManager.filterRecentPrompts ["a"] ["a", "b"] = ["b"] ∧
    PromptsManager.filterRecentPrompts ["a"] ["a"] ≠ [] := by
  constructor
  · rw [(C6_filter_recent_spec ["a"] ["a", "b"]).1]
    decide
  · exact (C6_filter_recent_spec ["a"] ["a"]).2.1 (by decide)

/-- Claim C2: inserting a fresh calendar date into the ledger makes
`currentStreak` the exact length of the trailing run of calendar-consecutive
dates (in the `nextDay` sense) of the chronologically sorted writing days
ending at their latest date. -/
theorem C2_addWritingDay_trailing_run (st : AppStore) (d : CalDate)
    (hv : ∀ x ∈ (StreakStorage.getStreakData st).writingDays, x.Valid)
    (hd : d.Valid)
    (hnew : d ∉ (StreakStorage.getStreakData st).writingDays) :
    ((StreakStorage.addWritingDay st d).2).currentStreak =
      trailingRunLen (sortDates ((StreakStorage.getStreakData st).writingDays ++ [d])) := by
  have hmem : d ∈ sortDates ((StreakStorage.getStreakData st).writingDays ++ [d]) :=
    (mem_sortDates d _).mpr (by simp)
  have hne : sortDates ((StreakStorage.getStreakData st).writingDays ++ [d]) ≠ [] := by
    intro hnil
    rw [hnil] at hmem
    exact absurd hmem (List.not_mem_nil d)
  have hv' : ∀ x ∈ sortDates ((StreakStorage.getStreakData st).writingDays ++ [d]),
      x.Valid := by
    intro x hx
    rcases List.mem_append.mp ((mem_sortDates x _).mp hx) with hl | hr
    · exact hv x hl
    · rw [List.mem_singleton.mp hr]
      exact hd
  have hred : ((StreakStorage.addWritingDay st d).2).currentStreak =
      streakWalk (sortDates ((StreakStorage.getStreakData st).writingDays ++ [d])).reverse := by
    unfold StreakStorage.addWritingDay
    simp [hnew]
  rw [hred]
  exact streakWalk_reverse_eq _ hv' hne

def sdC2 : StreakData :=
  { currentStreak := 3, longestStreak := 3, lastWriteDate := some dJan3,
    writingDays := [dJan1, dJan2, dJan3] }

def stC2 : AppStore :=
  { available := true, full := false, entriesSlot := none,
    streakSlot := some (some sdC2), recentSlot := none }

/-- Witness for C2 at the two examples of the claim: extending
`[2025-01-01, 2025-01-02, 2025-01-03]` with `2025-01-04` gives streak 4,
while inserting `2025-01-06` instead gives streak 1. -/
theorem C2_witness :
    ((StreakStorage.addWritingDay stC2 dJan4).2).currentStreak = 4 ∧
    ((StreakStorage.addWritingDay stC2 dJan6).2).currentStreak = 1 := by
  constructor
  · rw [C2_addWritingDay_trailing_run stC2 dJan4 (by decide) (by decide) (by decide)]
    decide
  · rw [C2_addWritingDay_trailing_run stC2 dJan6 (by decide) (by decide) (by decide)]
    decide

/-! ## Claim C4 machinery -/

/-- Fold a sequence of writing-day insertions over the store. -/
def applyDays (st : AppStore) (ds : List CalDate) : AppStore :=
  ds.foldl (fun s d => (StreakStorage.addWritingDay s d).1) st

/-- A store holding the default ledger (nothing stored under the streak
key), with arbitrary failure flags. -/
def mkDefaultStore (available full : Bool) : AppStore :=
  { available := available, full := full, entriesSlot := none, streakSlot := none,
    recentSlot := none }

theorem getStreakData_mkDefaultStore (available full : Bool) :
    StreakStorage.getStreakData (mkDefaultStore available full) = defaultStreakData := by
  unfold StreakStorage.getStreakData mkDefaultStore mgrGet
  split <;> rfl

theorem addWritingDay_longest_mono (st : AppStore) (d : CalDate) :
    (StreakStorage.getStreakData st).longestStreak ≤
      (StreakStorage.getStreakData (StreakStorage.addWritingDay st d).1).longestStreak := by
  unfold StreakStorage.addWritingDay
  by_cases hmem : d ∈ (StreakStorage.getStreakData st).writingDays
  · simp [hmem]
  · simp only [hmem, if_neg, ite_false]
    unfold StreakStorage.saveStreakData StreakStorage.getStreakData mgrSet mgrGet
    by_cases hav : st.available
    · by_cases hfull : st.full
      · simp [hav, hfull]
      · simp [hav, hfull]
        split <;> (try split) <;> omega
    · simp [hav]

theorem addWritingDay_cur_le_longest (st : AppStore) (d : CalDate)
    (h : (StreakStorage.getStreakData st).currentStreak ≤
      (StreakStorage.getStreakData st).longestStreak) :
    (StreakStorage.getStreakData (StreakStorage.addWritingDay st d).1).currentStreak ≤
      (StreakStorage.getStreakData (StreakStorage.addWritingDay st d).1).longestStreak := by
  unfold StreakStorage.addWritingDay
  by_cases hmem : d ∈ (StreakStorage.getStreakData st).writingDays
  · simpa [hmem] using h
  · simp only [hmem, if_neg, ite_false]
    unfold StreakStorage.saveStreakData StreakStorage.getStreakData mgrSet mgrGet at *
    by_cases hav : st.available
    · by_cases hfull : st.full
      · simpa [hav, hfull] using h
      · simp [hav, hfull]
        split <;> (try split) <;> omega
    · simpa [hav] using h

theorem applyDays_append (st : AppStore) (ds es : List CalDate) :
    applyDays st (ds ++ es) = applyDays (applyDays st ds) es :=
  List.foldl_append _ _ _ _

theorem applyDays_longest_mono (st : AppStore) (es : List CalDate) :
    (StreakStorage.getStreakData st).longestStreak ≤
      (StreakStorage.getStreakData (applyDays st es)).longestStreak := by
  induction es generalizing st with
  | nil => exact Nat.le_refl _
  | cons e es ih =>
    exact Nat.le_trans (addWritingDay_longest_mono st e)
      (ih (StreakStorage.addWritingDay st e).1)

theorem applyDays_cur_le_longest (st : AppStore) (ds : List CalDate)
    (h : (StreakStorage.getStreakData st).currentStreak ≤
      (StreakStorage.getStreakData st).longestStreak) :
    (StreakStorage.getStreakData (applyDays st ds)).currentStreak ≤
      (StreakStorage.getStreakData (applyDays st ds)).longestStreak := by
  induction ds generalizing st with
  | nil => exact h
  | cons e es ih => exact ih _ (addWritingDay_cur_le_longest st e h)

/-- Claim C4: starting from the default ledger, `longestStreak` never
decreases across any sequence of writing-day insertions, and after every
sequence of streak updates `longestStreak` bounds `currentStreak`. -/
theorem C4_longest_monotone_and_bound (available full : Bool) (ds es : List CalDate) :
    (StreakStorage.getStreakData (applyDays (mkDefaultStore available full) ds)).longestStreak ≤
      (StreakStorage.getStreakData
        (applyDays (mkDefaultStore available full) (ds ++ es))).longestStreak ∧
    (StreakStorage.getStreakData (applyDays (mkDefaultStore available full) ds)).currentStreak ≤
      (StreakStorage.getStreakData (applyDays (mkDefaultStore available full) ds)).longestStreak := by
  constructor
  · rw [applyDays_append]
    exact applyDays_longest_mono _ es
  · exact applyDays_cur_le_longest _ ds (by rw [getStreakData_mkDefaultStore]; exact Nat.le_refl 0)

/-! ## Claim C1 machinery -/

theorem wordsAux_all_ws (cs : List Char) (h : ∀ c ∈ cs, isWs c = true) :
    wordsAux cs [] = [] := by
  induction cs with
  | nil => rfl
  | cons c cs ih =>
    rw [wordsAux, h c (by simp)]
    simp only [List.isEmpty_nil, if_true]
    exact ih (fun c hc => h c (by simp [hc]))

theorem countWords_eq_zero_of_trim_empty (text : String) (h : jsTrimEmpty text = true) :
    countWords text = 0 := by
  unfold countWords
  rw [wordsAux_all_ws text.toList (by simpa [jsTrimEmpty, List.all_eq_true] using h)]
  rfl

theorem trim_not_empty_of_words (text : String)
    (h : MIN_WORDS_FOR_STREAK ≤ countWords text) : jsTrimEmpty text = false := by
  cases he : jsTrimEmpty text
  · rfl
  · have h0 := countWords_eq_zero_of_trim_empty text he
    rw [h0] at h
    exact absurd h (by decide)

theorem addWritingDay_preserves (st : AppStore) (d : CalDate) :
    (StreakStorage.addWritingDay st d).1.available = st.available ∧
    (StreakStorage.addWritingDay st d).1.full = st.full ∧
    EntriesStorage.getEntries (StreakStorage.addWritingDay st d).1 =
      EntriesStorage.getEntries st := by
  simp only [StreakStorage.addWritingDay]
  split
  · exact ⟨rfl, rfl, rfl⟩
  · exact ⟨rfl, rfl, rfl⟩

theorem addWritingDay_writingDays_fresh (st : AppStore) (d : CalDate)
    (hav : st.available = true) (hfull : st.full = false)
    (hnew : d ∉ (StreakStorage.getStreakData st).writingDays) :
    (StreakStorage.getStreakData (StreakStorage.addWritingDay st d).1).writingDays =
      sortDates ((StreakStorage.getStreakData st).writingDays ++ [d]) := by
  simp only [StreakStorage.addWritingDay, if_neg hnew]
  unfold StreakStorage.saveStreakData StreakStorage.getStreakData mgrSet mgrGet
  simp [hav, hfull]

theorem saveEntry_getEntries (st : AppStore) (p t : String) (wc : Nat) (m : String)
    (now : Nat) (iso : String) (hav : st.available = true) (hfull : st.full = false) :
    EntriesStorage.getEntries (EntriesStorage.saveEntry st p t wc m now iso).1 =
      { id := .num now, date := iso, prompt := p, text := t, wordCount := wc, mode := m }
        :: EntriesStorage.getEntries st := by
  simp only [EntriesStorage.saveEntry]
  unfold EntriesStorage.getEntries mgrSet mgrGet
  simp [hav, hfull]

theorem saveEntry_getStreakData (st : AppStore) (p t : String) (wc : Nat) (m : String)
    (now : Nat) (iso : String) :
    StreakStorage.getStreakData (EntriesStorage.saveEntry st p t wc m now iso).1 =
      StreakStorage.getStreakData st := rfl

theorem saveEntry_flags (st : AppStore) (p t : String) (wc : Nat) (m : String)
    (now : Nat) (iso : String) :
    (EntriesStorage.saveEntry st p t wc m now iso).1.available = st.available ∧
    (EntriesStorage.saveEntry st p t wc m now iso).1.full = st.full := ⟨rfl, rfl⟩

def text24 : String := "w w w w w w w w w w w w w w w w w w w w w w w w"

def text25 : String := "w w w w w w w w w w w w w w w w w w w w w w w w w"

/-- Counterexample to claim C1 as stated: an explicit save with non-empty
text of 24 words does not persist any entry — the action validates, runs
its side effects, and leaves the whole store (archive and streak ledger)
untouched. -/
theorem C1_counterexample :
    countWords text24 = 24 ∧
    jsTrimEmpty text24 = false ∧
    (ActionsManager.persistCore stEmpty "p" text24 "personal" dJan1 1000 "t").2 = true ∧
    (ActionsManager.persistCore stEmpty "p" text24 "personal" dJan1 1000 "t").1 = stEmpty ∧
    EntriesStorage.getEntries
      (ActionsManager.persistCore stEmpty "p" text24 "personal" dJan1 1000 "t").1 = [] := by
  refine ⟨by decide, by decide, ?_, ?_, ?_⟩ <;> decide

/-- Claim C1 (amended): the explicit save/copy actions persist an entry to
the archive only when the word count reaches `MIN_WORDS_FOR_STREAK` (25).
Below the threshold the action completes without persisting an entry and
without touching the streak ledger (the store is unchanged); at or above
the threshold (with a writable store) the entry is prepended to the archive
and the streak is updated for the current calendar date exactly once, even
when the action runs twice within the same date — the second run persists
a further entry but leaves the ledger as it was. -/
theorem C1_persist_gated (st : AppStore)
    (promptText text textShort mode p2 t2 m2 iso iso2 : String)
    (today : CalDate) (now now2 : Nat)
    (hshort : countWords textShort < MIN_WORDS_FOR_STREAK)
    (hwc : MIN_WORDS_FOR_STREAK ≤ countWords text)
    (hwc2 : MIN_WORDS_FOR_STREAK ≤ countWords t2)
    (hav : st.available = true) (hfull : st.full = false)
    (hnew : today ∉ (StreakStorage.getStreakData st).writingDays) :
    (ActionsManager.persistCore st promptText textShort mode today now iso).1 = st ∧
    EntriesStorage.getEntries
        (ActionsManager.persistCore st promptText text mode today now iso).1 =
      { id := .num now, date := iso, prompt := promptText, text := text,
        wordCount := countWords text, mode := mode }
        :: EntriesStorage.getEntries st ∧
    (StreakStorage.getStreakData
        (ActionsManager.persistCore st promptText text mode today now iso).1).writingDays.count
        today = 1 ∧
    StreakStorage.getStreakData
        (ActionsManager.persistCore
          (ActionsManager.persistCore st promptText text mode today now iso).1
          p2 t2 m2 today now2 iso2).1 =
      StreakStorage.getStreakData
        (ActionsManager.persistCore st promptText text mode today now iso).1 := by
  have htrim : jsTrimEmpty text = false := trim_not_empty_of_words text hwc
  have htrim2 : jsTrimEmpty t2 = false := trim_not_empty_of_words t2 hwc2
  have hshort' : ¬ MIN_WORDS_FOR_STREAK ≤ countWords textShort := by omega
  have hupd : (StreakManager.updateStreak st (countWords text) today).1 =
      (StreakStorage.addWritingDay st today).1 := by
    unfold StreakManager.updateStreak
    rw [if_neg (by omega)]
  have hcore : (ActionsManager.persistCore st promptText text mode today now iso).1 =
      (EntriesStorage.saveEntry (StreakStorage.addWritingDay st today).1
        promptText text (countWords text) mode now iso).1 := by
    unfold ActionsManager.persistCore
    rw [htrim]
    simp only [Bool.false_eq_true, if_false, if_pos hwc, hupd]
  obtain ⟨hav1, hfull1, hent1⟩ := addWritingDay_preserves st today
  rw [hav] at hav1
  rw [hfull] at hfull1
  have hdays : (StreakStorage.getStreakData
      (ActionsManager.persistCore st promptText text mode today now iso).1).writingDays =
      sortDates ((StreakStorage.getStreakData st).writingDays ++ [today]) := by
    rw [hcore, saveEntry_getStreakData]
    exact addWritingDay_writingDays_fresh st today hav hfull hnew
  refine ⟨?_, ?_, ?_, ?_⟩
  · unfold ActionsManager.persistCore
    cases hts : jsTrimEmpty textShort
    · simp only [Bool.false_eq_true, if_false, if_neg hshort']
    · simp only [if_true]
  · rw [hcore, saveEntry_getEntries _ _ _ _ _ _ _ hav1 hfull1, hent1]
  · rw [hdays, count_sortDates, List.count_append]
    rw [List.count_eq_zero.mpr hnew]
    simp
  · have hmem2 : today ∈ (StreakStorage.getStreakData
        (ActionsManager.persistCore st promptText text mode today now iso).1).writingDays := by
      rw [hdays]
      exact (mem_sortDates today _).mpr (by simp)
    have hupd2 : (StreakManager.updateStreak
        (ActionsManager.persistCore st promptText text mode today now iso).1
        (countWords t2) today).1 =
        (StreakStorage.addWritingDay
          (ActionsManager.persistCore st promptText text mode today now iso).1 today).1 := by
      unfold StreakManager.updateStreak
      rw [if_neg (by omega)]
    have hidem := addWritingDay_of_mem _ today hmem2
    conv_lhs =>
      rw [ActionsManager.persistCore]
    rw [htrim2]
    simp only [Bool.false_eq_true, if_false, if_pos hwc2]
    rw [hupd2, saveEntry_getStreakData, hidem]

/-- Witness for C1 at concrete 24-word and 25-word texts over the fresh
store. -/
theorem C1_witness :
    (ActionsManager.persistCore stEmpty "p" text24 "personal" dJan1 1000 "t").1 = stEmpty ∧
    EntriesStorage.getEntries
        (ActionsManager.persistCore stEmpty "p" text25 "personal" dJan1 1000 "t").1 =
      { id := .num 1000, date := "t", prompt := "p", text := text25,
        wordCount := countWords text25, mode := "personal" }
        :: EntriesStorage.getEntries stEmpty ∧
    (StreakStorage.getStreakData
        (ActionsManager.persistCore stEmpty "p" text25 "personal" dJan1 1000 "t").1).writingDays.count
        dJan1 = 1 ∧
    StreakStorage.getStreakData
        (ActionsManager.persistCore
          (ActionsManager.persistCore stEmpty "p" text25 "personal" dJan1 1000 "t").1
          "q" text25 "personal" dJan1 2000 "u").1 =
      StreakStorage.getStreakData
        (ActionsManager.persistCore stEmpty "p" text25 "personal" dJan1 1000 "t").1 :=
  C1_persist_gated stEmpty "p" text25 text24 "personal" "q" text25 "personal" "t" "u"
    dJan1 1000 2000 (by decide) (by decide) (by decide) rfl rfl (by decide)

/-! ## Claim C9 machinery -/

/-- Arguments of one `saveEntryToHistory` call together with its ambient
clock readings. -/
structure SaveArgs where
  promptText : String
  text : String
  wordCount : Nat
  mode : String
  now : Nat
  iso : String
deriving DecidableEq, Repr

/-- The entry `EntriesStorage.saveEntry` builds for one call. -/
def mkEntry (r : SaveArgs) : Entry :=
  { id := .num r.now, date := r.iso, prompt := r.promptText, text := r.text,
    wordCount := r.wordCount, mode := r.mode }

/-- Fold a sequence of `EntriesStorage.saveEntry` calls over the store. -/
def saveMany (st : AppStore) (reqs : List SaveArgs) : AppStore :=
  reqs.foldl
    (fun s r => (EntriesStorage.saveEntry s r.promptText r.text r.wordCount r.mode r.now r.iso).1)
    st

theorem getEntries_saveMany (st : AppStore) (reqs : List SaveArgs)
    (hav : st.available = true) (hfull : st.full = false) :
    EntriesStorage.getEntries (saveMany st reqs) =
      (reqs.map mkEntry).reverse ++ EntriesStorage.getEntries st := by
  induction reqs generalizing st with
  | nil => simp [saveMany]
  | cons r rs ih =>
    have hstep : saveMany st (r :: rs) =
        saveMany (EntriesStorage.saveEntry st r.promptText r.text r.wordCount r.mode
          r.now r.iso).1 rs := rfl
    have hflag := saveEntry_flags st r.promptText r.text r.wordCount r.mode r.now r.iso
    rw [hstep, ih _ (by rw [hflag.1, hav]) (by rw [hflag.2, hfull]),
        saveEntry_getEntries _ _ _ _ _ _ _ hav hfull]
    simp [mkEntry]

/-- Claim C9 (amended): persisted entry ids are unique provided the
`Date.now()` readings of the saves are pairwise distinct; the id is exactly
the creation-time reading, so saves within the same millisecond collide
(see the counterexample). -/
theorem C9_ids_unique (st : AppStore) (reqs : List SaveArgs)
    (hav : st.available = true) (hfull : st.full = false)
    (hempty : EntriesStorage.getEntries st = [])
    (hnodup : (reqs.map (fun r => r.now)).Nodup) :
    ((EntriesStorage.getEntries (saveMany st reqs)).map (fun e => e.id)).Nodup := by
  rw [getEntries_saveMany st reqs hav hfull, hempty, List.append_nil, List.map_reverse,
      List.nodup_reverse, List.map_map]
  have hcomp : ((fun e => e.id) ∘ mkEntry) = (fun r : SaveArgs => IdVal.num r.now) := rfl
  rw [hcomp, show (fun r : SaveArgs => IdVal.num r.now) =
      (IdVal.num ∘ fun r : SaveArgs => r.now) from rfl, ← List.map_map]
  exact hnodup.map (fun a b h => by simpa using h)

def reqA : SaveArgs :=
  { promptText := "p", text := "t", wordCount := 30, mode := "personal",
    now := 1000, iso := "d" }

def reqB : SaveArgs :=
  { promptText := "q", text := "u", wordCount := 40, mode := "personal",
    now := 1000, iso := "d" }

/-- Counterexample to claim C9 as stated: two saves in the same millisecond
(`Date.now() = 1000` for both) produce two stored entries sharing one id. -/
theorem C9_counterexample :
    (EntriesStorage.getEntries (saveMany stEmpty [reqA, reqB])).map (fun e => e.id) =
      [IdVal.num 1000, IdVal.num 1000] ∧
    (EntriesStorage.getEntries (saveMany stEmpty [reqA, reqB])).length = 2 ∧
    ¬ ((EntriesStorage.getEntries (saveMany stEmpty [reqA, reqB])).map
        (fun e => e.id)).Nodup := by
  refine ⟨by decide, by decide, ?_⟩
  decide

/-- Witness for C9 at two saves with distinct clock readings. -/
theorem C9_witness :
    ((EntriesStorage.getEntries
      (saveMany stEmpty [reqA, { reqB with now := 1001 }])).map (fun e => e.id)).Nodup :=
  C9_ids_unique stEmpty [reqA, { reqB with now := 1001 }] rfl rfl (by decide) (by decide)

/-! ## Claim C10 machinery -/

/-- Discriminator for numeric ids (the shape `EntriesStorage.saveEntry`
always produces). -/
def IdVal.isNum : IdVal → Bool
  | .num _ => true
  | .str _ => false

theorem find?_congr_mem {α : Type} (l : List α) (p q : α → Bool)
    (h : ∀ a ∈ l, p a = q a) : l.find? p = l.find? q := by
  induction l with
  | nil => rfl
  | cons a t ih =>
    rw [List.find?_cons, List.find?_cons, h a (by simp)]
    cases hq : q a
    · simp only
      exact ih (fun a ha => h a (by simp [ha]))
    · simp only

theorem looseEq_digits_num (v : IdVal) (n : Nat) (hnum : v.isNum = true) :
    looseEq v (IdVal.str (Nat.digits 10 n)) = looseEq v (IdVal.num n) := by
  cases v with
  | num m =>
    show (m == toNumber (Nat.digits 10 n)) = (m == n)
    rw [show toNumber (Nat.digits 10 n) = n from Nat.ofDigits_digits 10 n]
  | str s => exact absurd hnum (by simp [IdVal.isNum])

/-- Claim C10: on an archive whose entries all carry numeric ids (as
`saveEntry` produces), deleting or looking up by the decimal-string form of
an id behaves exactly like using the number itself, because both operations
compare ids with JavaScript loose equality. -/
theorem C10_loose_id_coercion (st : AppStore) (n : Nat)
    (hnum : ∀ e ∈ EntriesStorage.getEntries st, (e.id).isNum = true) :
    EntriesStorage.deleteEntry st (IdVal.str (Nat.digits 10 n)) =
      EntriesStorage.deleteEntry st (IdVal.num n) ∧
    EntriesStorage.getEntryById st (IdVal.str (Nat.digits 10 n)) =
      EntriesStorage.getEntryById st (IdVal.num n) := by
  have hpt : ∀ e ∈ EntriesStorage.getEntries st,
      looseEq e.id (IdVal.str (Nat.digits 10 n)) = looseEq e.id (IdVal.num n) :=
    fun e he => looseEq_digits_num e.id n (hnum e he)
  constructor
  · have hfil : (EntriesStorage.getEntries st).filter
        (fun e => !(looseEq e.id (IdVal.str (Nat.digits 10 n)))) =
        (EntriesStorage.getEntries st).filter (fun e => !(looseEq e.id (IdVal.num n))) :=
      List.filter_congr (fun e he => by rw [hpt e he])
    simp only [EntriesStorage.deleteEntry]
    rw [hfil]
  · unfold EntriesStorage.getEntryById
    exact find?_congr_mem _ _ _ hpt

/-- Witness for C10: deleting and looking up the entry with numeric id 5 by
the string "5" matches using the number 5. -/
theorem C10_witness :
    EntriesStorage.deleteEntry stC8 (IdVal.str (Nat.digits 10 5)) =
      EntriesStorage.deleteEntry stC8 (IdVal.num 5) ∧
    EntriesStorage.getEntryById stC8 (IdVal.str (Nat.digits 10 5)) =
      EntriesStorage.getEntryById stC8 (IdVal.num 5) :=
  C10_loose_id_coercion stC8 5 (by decide)

/-! ## Claim C5 machinery -/

/-- All prompt strings of a string-keyed table. -/
def tableStrings : List (String × List String) → List String
  | [] => []
  | kv :: t => kv.2 ++ tableStrings t

/-- All mood prompt strings of a pool. -/
def moodStrings (p : PromptCategories) : List String :=
  moodList p (·.reflective) ++ moodList p (·.grateful) ++ moodList p (·.energized) ++
    moodList p (·.creative) ++ moodList p (·.struggling)

/-- All seasonal prompt strings of a pool. -/
def seasonalStrings (p : PromptCategories) : List String :=
  match p.seasonal with
  | some s => tableStrings s.table
  | none => []

/-- Every prompt string a pool can contribute to candidate assembly. -/
def allPoolStrings (p : PromptCategories) : List String :=
  p.life.getD [] ++ p.career.getD [] ++
    (match p.timeAware with | some ta => tableStrings ta | none => []) ++
    moodStrings p ++ seasonalStrings p

/-- A pool none of whose prompt strings is empty. -/
def poolClean (p : PromptCategories) : Bool :=
  (allPoolStrings p).all (fun s => !(s == ""))

theorem mem_lookup_getD (l : List (String × List String)) (c s : String)
    (h : s ∈ ((l.lookup c).getD [])) : s ∈ tableStrings l := by
  induction l with
  | nil => simp [List.lookup] at h
  | cons kv t ih =>
    rw [List.lookup] at h
    unfold tableStrings
    cases hck : (c == kv.1)
    · rw [hck] at h
      exact List.mem_append.mpr (Or.inr (ih h))
    · rw [hck] at h
      exact List.mem_append.mpr (Or.inl h)

theorem sub_allPool_life (p : PromptCategories) (x : String) (h : x ∈ p.life.getD []) :
    x ∈ allPoolStrings p := by
  simp only [allPoolStrings, List.mem_append]
  tauto

theorem sub_allPool_career (p : PromptCategories) (x : String) (h : x ∈ p.career.getD []) :
    x ∈ allPoolStrings p := by
  simp only [allPoolStrings, List.mem_append]
  tauto

theorem sub_allPool_time (p : PromptCategories) (x : String)
    (h : x ∈ (match p.timeAware with | some ta => tableStrings ta | none => [])) :
    x ∈ allPoolStrings p := by
  simp only [allPoolStrings, List.mem_append]
  tauto

theorem sub_allPool_mood (p : PromptCategories) (x : String) (h : x ∈ moodStrings p) :
    x ∈ allPoolStrings p := by
  simp only [allPoolStrings, List.mem_append]
  tauto

theorem sub_allPool_seasonal (p : PromptCategories) (x : String)
    (h : x ∈ seasonalStrings p) : x ∈ allPoolStrings p := by
  simp only [allPoolStrings, List.mem_append]
  tauto

theorem mem_moodList_strings (p : PromptCategories) (x : String)
    (h : x ∈ moodList p (·.reflective) ∨ x ∈ moodList p (·.grateful) ∨
      x ∈ moodList p (·.energized) ∨ x ∈ moodList p (·.creative) ∨
      x ∈ moodList p (·.struggling)) : x ∈ moodStrings p := by
  simp only [moodStrings, List.mem_append]
  tauto

theorem mem_moodAware (pm : PromptsState) (hour day : Nat) (s : String)
    (h : s ∈ PromptsManager.getMoodAwarePrompts pm hour day) :
    s ∈ moodStrings (PromptsManager.getPrompts pm) := by
  unfold PromptsManager.getMoodAwarePrompts at h
  apply mem_moodList_strings
  split at h
  · split at h
    · rcases List.mem_append.mp h with h1 | h1
      · exact Or.inl (List.mem_of_mem_take h1)
      · exact Or.inr (Or.inl (List.mem_of_mem_take h1))
    · split at h
      · rcases List.mem_append.mp h with h1 | h1
        · exact Or.inr (Or.inr (Or.inl (List.mem_of_mem_take h1)))
        · exact Or.inr (Or.inr (Or.inr (Or.inl (List.mem_of_mem_take h1))))
      · rcases List.mem_append.mp h with h1 | h1
        · exact Or.inl (List.mem_of_mem_take h1)
        · exact Or.inr (Or.inr (Or.inr (Or.inl (List.mem_of_mem_take h1))))
  · rcases List.mem_append.mp h with h1 | h1
    · exact Or.inr (Or.inr (Or.inl (List.mem_of_mem_take h1)))
    · split at h1
      · exact Or.inr (Or.inr (Or.inr (Or.inr (List.mem_of_mem_take h1))))
      · exact absurd h1 (List.not_mem_nil s)

theorem mem_seasonal (pm : PromptsState) (s : String)
    (h : s ∈ PromptsManager.getSeasonalPrompts pm) :
    s ∈ seasonalStrings (PromptsManager.getPrompts pm) := by
  simp only [PromptsManager.getSeasonalPrompts] at h
  unfold seasonalStrings
  split at h
  · rename_i sobj heq
    split at h
    · split at h
      · exact absurd h (List.not_mem_nil s)
      · exact mem_lookup_getD _ _ _ h
    · exact absurd h (List.not_mem_nil s)
  · exact absurd h (List.not_mem_nil s)

theorem filterRecent_subset (lu arr : List String) (s : String)
    (h : s ∈ PromptsManager.filterRecentPrompts lu arr) : s ∈ arr := by
  simp only [PromptsManager.filterRecentPrompts] at h
  split at h
  · exact h
  · split at h
    · exact (List.mem_filter.mp h).1
    · exact h

theorem mem_timeAwareMix (p : PromptCategories) (hour day : Nat) (arr : List String)
    (s : String) (h : s ∈ PromptsManager.timeAwareMix p hour day arr) :
    s ∈ arr ∨ s ∈ (match p.timeAware with | some ta => tableStrings ta | none => []) := by
  unfold PromptsManager.timeAwareMix at h
  split at h
  · rename_i cat ta hcat hta
    split at h
    · rename_i tp hlk
      rcases List.mem_append.mp h with h1 | h1
      · exact Or.inl h1
      · right
        rw [hta]
        show s ∈ tableStrings ta
        exact mem_lookup_getD ta cat s (by rw [hlk]; exact List.mem_of_mem_take h1)
    · exact Or.inl h
  · exact Or.inl h

theorem mem_assemble (pm : PromptsState) (hour day : Nat) (s : String)
    (h : s ∈ PromptsManager.assemblePromptArray pm hour day) :
    s ∈ allPoolStrings (PromptsManager.getPrompts pm) ∨
      s ∈ fallbackLife ∨ s ∈ fallbackCareer := by
  have hbase : ∀ x, x ∈ (if pm.currentMode = "professional"
      then (PromptsManager.getPrompts pm).career.getD fallbackCareer
      else (PromptsManager.getPrompts pm).life.getD fallbackLife) →
      x ∈ allPoolStrings (PromptsManager.getPrompts pm) ∨
        x ∈ fallbackLife ∨ x ∈ fallbackCareer := by
    intro x hx
    split at hx
    · cases hc : (PromptsManager.getPrompts pm).career with
      | none =>
        rw [hc] at hx
        exact Or.inr (Or.inr hx)
      | some l =>
        rw [hc] at hx
        exact Or.inl (sub_allPool_career _ x (by rw [hc]; exact hx))
    · cases hc : (PromptsManager.getPrompts pm).life with
      | none =>
        rw [hc] at hx
        exact Or.inr (Or.inl hx)
      | some l =>
        rw [hc] at hx
        exact Or.inl (sub_allPool_life _ x (by rw [hc]; exact hx))
  simp only [PromptsManager.assemblePromptArray] at h
  set P := PromptsManager.getPrompts pm with hP
  set A1 := (if pm.currentMode = "professional" then P.career.getD fallbackCareer
             else P.life.getD fallbackLife) with hA1
  set A2 := PromptsManager.timeAwareMix P hour day A1 with hA2
  set A3 := A2 ++ PromptsManager.getMoodAwarePrompts pm hour day with hA3
  set A4 := (if 0 < (PromptsManager.getSeasonalPrompts pm).length
             then A3 ++ (PromptsManager.getSeasonalPrompts pm).take 3 else A3) with hA4
  set A5 := PromptsManager.filterRecentPrompts pm.lastUsedPrompts A4 with hA5
  have hA3mem : ∀ x, x ∈ A3 →
      x ∈ allPoolStrings P ∨ x ∈ fallbackLife ∨ x ∈ fallbackCareer := by
    intro x hx
    rw [hA3] at hx
    rcases List.mem_append.mp hx with h2 | h2
    · rw [hA2] at h2
      rcases mem_timeAwareMix P hour day A1 x h2 with h1 | h1
      · exact hbase x (by rw [hA1] at h1; exact h1)
      · exact Or.inl (sub_allPool_time P x h1)
    · exact Or.inl (sub_allPool_mood P x (mem_moodAware pm hour day x h2))
  have hA4mem : ∀ x, x ∈ A4 →
      x ∈ allPoolStrings P ∨ x ∈ fallbackLife ∨ x ∈ fallbackCareer := by
    intro x hx
    rw [hA4] at hx
    split at hx
    · rcases List.mem_append.mp hx with h3 | h3
      · exact hA3mem x h3
      · exact Or.inl (sub_allPool_seasonal P x
          (mem_seasonal pm x (List.mem_of_mem_take h3)))
    · exact hA3mem x hx
  by_cases hlen : A5.length = 0
  · rw [if_pos hlen] at h
    split at h
    · exact Or.inr (Or.inr h)
    · exact Or.inr (Or.inl h)
  · rw [if_neg hlen] at h
    exact hA4mem s (filterRecent_subset _ _ _ (by rw [hA5] at h; exact h))

theorem assemble_ne_nil (pm : PromptsState) (hour day : Nat) :
    PromptsManager.assemblePromptArray pm hour day ≠ [] := by
  simp only [PromptsManager.assemblePromptArray]
  set A5 := PromptsManager.filterRecentPrompts pm.lastUsedPrompts _ with hA5
  by_cases hlen : A5.length = 0
  · rw [if_pos hlen]
    split
    · decide
    · decide
  · rw [if_neg hlen]
    intro hc
    rw [hc] at hlen
    exact hlen rfl

theorem fallback_strings_ne_empty :
    (∀ x ∈ fallbackLife, x ≠ "") ∧ (∀ x ∈ fallbackCareer, x ≠ "") := by
  constructor <;> decide

/-- Claim C5 (amended): `generateSmartPrompt` always returns a defined
string (never `undefined`), and whenever every prompt string of the loaded
pool is non-empty — the embedded fallback pool satisfies this — the
returned string is non-empty.  A structurally valid external pool that
contains an empty string among its prompt lists can surface that empty
string verbatim (see the counterexample). -/
theorem C5_prompt_defined_and_nonempty (pm : PromptsState) (st : AppStore)
    (hour day k : Nat) :
    ((PromptsManager.generateSmartPrompt pm st hour day k).1).isSome = true ∧
    (poolClean (PromptsManager.getPrompts pm) = true →
      ∀ s, (PromptsManager.generateSmartPrompt pm st hour day k).1 = some s → s ≠ "") := by
  cases hpl : pm.promptsLoaded with
  | false =>
    constructor
    · simp [PromptsManager.generateSmartPrompt, hpl]
    · intro _ s hs
      simp [PromptsManager.generateSmartPrompt, hpl] at hs
      rw [← hs]
      decide
  | true =>
    have hne := assemble_ne_nil pm hour day
    have hlen : 0 < (PromptsManager.assemblePromptArray pm hour day).length :=
      List.length_pos.mpr hne
    rcases hg : (PromptsManager.assemblePromptArray pm hour day).get?
        (k % (PromptsManager.assemblePromptArray pm hour day).length) with _ | sel
    · exfalso
      have hidx := Nat.mod_lt k hlen
      rw [List.get?_eq_getElem?, List.getElem?_eq_none_iff] at hg
      omega
    · have hmem := List.get?_mem hg
      have hg' : (PromptsManager.assemblePromptArray pm hour
          day)[k % (PromptsManager.assemblePromptArray pm hour day).length]? = some sel := by
        rw [← List.get?_eq_getElem?]
        exact hg
      constructor
      · simp [PromptsManager.generateSmartPrompt, hpl, hg']
      · intro hclean s hs
        have hres : (PromptsManager.generateSmartPrompt pm st hour day k).1 = some sel := by
          simp [PromptsManager.generateSmartPrompt, hpl, hg']
        rw [hres] at hs
        rw [← Option.some.inj hs]
        rcases mem_assemble pm hour day sel hmem with hp | hf | hf
        · have hall := List.all_eq_true.mp hclean sel hp
          simpa using hall
        · exact (fallback_strings_ne_empty.1) sel hf
        · exact (fallback_strings_ne_empty.2) sel hf

def badPool : PromptCategories :=
  { life := some [""], career := some ["x"], timeAware := none, moods := none,
    seasonal := none }

def pmBad : PromptsState :=
  { externalPrompts := some badPool, promptsLoaded := true,
    currentMode := "personal", lastUsedPrompts := [] }

/-- Counterexample to claim C5 as stated: a pool that passes the structural
validation of `loadExternalPrompts` but lists the empty string as a personal
prompt makes `generateSmartPrompt` return the empty string. -/
theorem C5_counterexample :
    (PromptsManager.loadOutcome (some badPool)).2 = true ∧
    (PromptsManager.generateSmartPrompt pmBad stEmpty 12 2 0).1 = some "" := by
  constructor
  · decide
  · decide

def pmFallback : PromptsState :=
  { externalPrompts := some FALLBACK_PROMPTS, promptsLoaded := true,
    currentMode := "personal", lastUsedPrompts := [] }

/-- Witness for C5 at the loaded fallback pool, whose strings are all
non-empty. -/
theorem C5_witness :
    poolClean (PromptsManager.getPrompts pmFallback) = true ∧
    ((PromptsManager.generateSmartPrompt pmFallback stEmpty 12 2 0).1).isSome = true ∧
    (PromptsManager.generateSmartPrompt pmFallback stEmpty 12 2 0).1 ≠ some "" := by
  refine ⟨by decide, (C5_prompt_defined_and_nonempty pmFallback stEmpty 12 2 0).1, ?_⟩
  intro hc
  exact (C5_prompt_defined_and_nonempty pmFallback stEmpty 12 2 0).2 (by decide) "" hc rfl
